import Mathlib

/-
Verification of the csv-filter core engine (parsing, empty-row elimination,
set-based filtering, and key/value comparison) against its specification.

The JavaScript/TypeScript source is shallowly embedded: a cell value is a
tagged variant (string, number, null, undefined), a row is an assignment
list of key/value pairs built with JavaScript-object assignment semantics
(an assignment to an existing key overwrites in place, a new key is appended),
and the fallible functions return `Except`.
-/

namespace CsvFilter

/-- Scalar cell value of a CSV row: string, number, null or undefined,
mirroring `string | number | null | undefined` in the source. -/
inductive Value where
  | str : String → Value
  | num : Int → Value
  | null : Value
  | undefined : Value
deriving DecidableEq

/-- A CSV row: a JavaScript object modelled as an assignment list from
column name to value, with unique keys when built by this module. -/
abbrev CSVRow := List (String × Value)

/-- Characters treated as whitespace by JavaScript `String.prototype.trim`
(ECMAScript WhiteSpace and LineTerminator code points). -/
def jsWhitespace (c : Char) : Bool :=
  c = ' ' || c = '\t' || c = '\n' || c = '\r' || c = '\x0b' || c = '\x0c' ||
  c = '\u00A0' || c = '\u1680' ||
  (decide ('\u2000' ≤ c) && decide (c ≤ '\u200A')) ||
  c = '\u2028' || c = '\u2029' || c = '\u202F' || c = '\u205F' ||
  c = '\u3000' || c = '\uFEFF'

/-- JavaScript `trim` on a character list: drop leading and trailing whitespace. -/
def jsTrimList (cs : List Char) : List Char :=
  ((cs.dropWhile jsWhitespace).reverse.dropWhile jsWhitespace).reverse

/-- JavaScript `String.prototype.trim`. -/
def jsTrim (s : String) : String :=
  String.mk (jsTrimList s.data)

/-- JavaScript `String(value)` coercion of a cell value. -/
def jsString : Value → String
  | .str s => s
  | .num n => toString n
  | .null => "null"
  | .undefined => "undefined"

/-- First-match association lookup, the value a JavaScript property read
returns on an object with unique keys. -/
def lookupKey {α : Type} : List (String × α) → String → Option α
  | [], _ => none
  | (k', v) :: rest, k => if k' = k then some v else lookupKey rest k

/-- JavaScript property read `row[column]`: undefined when the key is absent. -/
def getVal (row : CSVRow) (column : String) : Value :=
  (lookupKey row column).getD .undefined

/-- JavaScript `column in row`: key presence, regardless of the stored value. -/
def hasKey (row : CSVRow) (column : String) : Bool :=
  (lookupKey row column).isSome

/-- JavaScript object assignment `obj[k] = v`: overwrite the first binding of
`k` in place, or append a fresh binding at the end. -/
def objSet {α : Type} : List (String × α) → String → α → List (String × α)
  | [], k, v => [(k, v)]
  | (k', v') :: rest, k, v =>
    if k' = k then (k, v) :: rest else (k', v') :: objSet rest k v

/-- Decidable list membership as a Bool, modelling JavaScript `Set.has` over
the listed elements. -/
def listMem {α : Type} [DecidableEq α] (x : α) : List α → Bool
  | [] => false
  | y :: ys => if x = y then true else listMem x ys

/-- Predicate from the source: a value counts as non-empty when it is neither
null nor undefined and its string coercion does not trim to the empty string. -/
def nonEmptyValue (v : Value) : Bool :=
  v ≠ Value.null && v ≠ Value.undefined && jsTrim (jsString v) ≠ ""

/-- Source `filterEmptyRows`: keep the rows having at least one non-empty value. -/
def filterEmptyRows (data : List CSVRow) : List CSVRow :=
  data.filter (fun row => (row.map Prod.snd).any nonEmptyValue)

/-- Filter mode of `filterCsvData` (`'exclude' | 'include'`). -/
inductive FilterMode where
  | exclude : FilterMode
  | incl : FilterMode
deriving DecidableEq

/-- Source `normalizeValue` inside `filterCsvData`: null/undefined map to
JavaScript `undefined` (here `none`), otherwise string coercion with optional
lowercasing. -/
def normalizeValue (caseInsensitive : Bool) (v : Value) : Option String :=
  match v with
  | .null => none
  | .undefined => none
  | v => some (if caseInsensitive then (jsString v).toLower else jsString v)

/-- Source `filterCsvData`: filter the left rows by membership of their
normalized value under `column` in the set of normalized right values. -/
def filterCsvData (leftData rightData : List CSVRow) (column : String)
    (mode : FilterMode) (caseInsensitive : Bool) : Except String (List CSVRow) :=
  if jsTrim column = "" then .error "Cannot filter by empty column name"
  else if leftData = [] then .ok leftData
  else if rightData = [] then .ok leftData
  else if ¬ rightData.any (fun row => hasKey row column) then .ok leftData
  else
    let rightValues := rightData.map (fun row => normalizeValue caseInsensitive (getVal row column))
    match mode with
    | .incl => .ok (leftData.filter (fun row =>
        listMem (normalizeValue caseInsensitive (getVal row column)) rightValues))
    | .exclude => .ok (leftData.filter (fun row =>
        ! listMem (normalizeValue caseInsensitive (getVal row column)) rightValues))

/-- Error kinds of `ParseCSVError` in the source. -/
inductive ErrorKind where
  | parsing_error : ErrorKind
  | duplicate_headers : ErrorKind
  | invalid_data : ErrorKind
deriving DecidableEq

/-- Source `ParseCSVError`: an error carrying the source file label, a kind
and a human-readable message. -/
structure ParseCSVError where
  filePath : String
  type : ErrorKind
  message : String
deriving DecidableEq

/-- Source `CSVData`: parsed rows plus the declared header list. -/
structure CSVData where
  data : List CSVRow
  headers : List String
deriving DecidableEq

/-- The candidate delimiter characters tested by the source
(`/[,\t;|]/`). -/
def delimiterChars : List Char := [',', '\t', ';', '|']

/-- Strip one leading byte-order-mark character, as the tokenizer does
before any other processing. -/
def stripBOM : List Char → List Char
  | [] => []
  | c :: cs => if c = '\uFEFF' then cs else c :: cs

/-- String version of `stripBOM`. -/
def stripBOMStr (s : String) : String :=
  String.mk (stripBOM s.data)

/-- Flush the current field into the current row (both accumulated in
reverse) producing a finished row of the tokenizer. -/
def flushRow (field : List Char) (row : List String) : List String :=
  (String.mk field.reverse :: row).reverse

/-- Modelled from the spec: the delimited-text tokenizer of the third-party
Papa Parse library, which is not part of this repository's sources. Standard
quoting rules: a field may be quoted with a double quote; a doubled double
quote inside a quoted field is one literal double quote; quoted fields may
contain the delimiter and line breaks; rows are separated by CRLF, LF or CR.
Arguments: remaining input, inside-quotes flag, current field (reversed),
current row (reversed field list), finished rows (reversed). -/
def tokenizeAux (delim : Char) : List Char → Bool → List Char → List String → List (List String) → List (List String)
  | [], _, field, row, out => (flushRow field row :: out).reverse
  | '"' :: '"' :: cs, true, field, row, out => tokenizeAux delim cs true ('"' :: field) row out
  | '"' :: cs, true, field, row, out => tokenizeAux delim cs false field row out
  | c :: cs, true, field, row, out => tokenizeAux delim cs true (c :: field) row out
  | '\r' :: '\n' :: cs, false, field, row, out => tokenizeAux delim cs false [] [] (flushRow field row :: out)
  | c :: cs, false, field, row, out =>
    if c = '"' ∧ field = [] then tokenizeAux delim cs true field row out
    else if c = delim then tokenizeAux delim cs false [] (String.mk field.reverse :: row) out
    else if c = '\r' ∨ c = '\n' then tokenizeAux delim cs false [] [] (flushRow field row :: out)
    else tokenizeAux delim cs false (c :: field) row out

/-- Modelled from the spec: tokenize a character stream with the given
delimiter into rows of fields. -/
def tokenize (delim : Char) (cs : List Char) : List (List String) :=
  tokenizeAux delim cs false [] [] []

/-- Modelled from the spec: Papa Parse's `skipEmptyLines: true` drops the
rows that are a single empty field (a literally empty line). -/
def skipEmptyLines (rows : List (List String)) : List (List String) :=
  rows.filter (fun r => r ≠ [""])

/-- Modelled from the spec: with no delimiter supplied, the tokenizer
auto-detects one; on empty or whitespace-only content no delimiter can be
detected; otherwise the first candidate present in the content is chosen,
comma being the default first candidate. -/
def guessDelimiter (cs : List Char) : Option Char :=
  if jsTrimList cs = [] then none
  else delimiterChars.find? (fun d => listMem d cs)

/-- The auto-detection failure message of the tokenizer. -/
def autoDetectFailureMsg : String :=
  "Unable to auto-detect delimiting character; defaulted to \x27,\x27"

/-- Modelled from the spec: result of a tokenizer run, rows plus the
row-level error messages. -/
structure PapaResult where
  data : List (List String)
  errors : List String
deriving DecidableEq

/-- Modelled from the spec: a full tokenizer run. One leading byte-order
mark is stripped before any other processing; when no delimiter is forced
and none can be detected, an auto-detection error is reported and the
default comma is used. -/
def papaParse (content : String) (forced : Option Char) : PapaResult :=
  let cs := stripBOM content.data
  match forced with
  | some d => ⟨skipEmptyLines (tokenize d cs), []⟩
  | none =>
    match guessDelimiter cs with
    | some d => ⟨skipEmptyLines (tokenize d cs), []⟩
    | none => ⟨skipEmptyLines (tokenize ',' cs), [autoDetectFailureMsg]⟩

/-- Source `parseCSV` delimiter probe: undefined for contents trimming to
empty, otherwise whether any of comma, tab, semicolon or pipe occurs. -/
def hasDelimitersOpt (content : String) : Option Bool :=
  if jsTrim content = "" then none
  else some (content.data.any (fun c => listMem c delimiterChars))

/-- Source `parseCSV` delimiter choice: force a tab for single-column
contents, otherwise leave the tokenizer to auto-detect. -/
def forcedDelimiter (content : String) : Option Char :=
  match hasDelimitersOpt content with
  | some false => some '\t'
  | _ => none

/-- The tokenizer run `parseCSV` performs on the given content. -/
def papaFor (content : String) : PapaResult :=
  papaParse content (forcedDelimiter content)

/-- Source row predicate: some field is non-null, defined, and does not trim
to the empty string (fields of tokenized rows are strings). -/
def strRowNonEmpty (row : List String) : Bool :=
  row.any (fun v => jsTrim v ≠ "")

/-- Source scan for the first row that is not entirely empty/whitespace. -/
def firstNonEmptyRowIndex : List (List String) → Option Nat
  | [] => none
  | row :: rest =>
    if strRowNonEmpty row then some 0
    else (firstNonEmptyRowIndex rest).map (· + 1)

/-- Source header normalization: strip one pair of surrounding double
quotes (`startsWith` and `endsWith` checks, then `slice(1, -1)`). -/
def stripQuotes (s : String) : String :=
  if s.data.head? = some '"' ∧ s.data.getLast? = some '"' then
    String.mk s.data.tail.dropLast
  else s

/-- Index of the first occurrence of `x` in `l` (JavaScript `indexOf`;
length of `l` when absent). -/
def firstIdx : List String → String → Nat
  | [], _ => 0
  | h :: t, x => if h = x then 0 else firstIdx t x + 1

/-- Source duplicate-header collection: every non-empty header occurrence
that is not the first occurrence of its name, in order. -/
def duplicateHeaderOccurrences (headers : List String) : List String :=
  (headers.enum.filter (fun p => p.2 ≠ "" ∧ firstIdx headers p.2 ≠ p.1)).map Prod.snd

/-- Deduplicate keeping first occurrences (JavaScript `[...new Set(l)]`).
The extra `seen` argument accumulates the elements already emitted. -/
def dedupFirstAux {α : Type} [DecidableEq α] (seen : List α) : List α → List α
  | [] => []
  | x :: xs =>
    if listMem x seen then dedupFirstAux seen xs
    else x :: dedupFirstAux (x :: seen) xs

/-- Deduplicate a list keeping first occurrences. -/
def dedupFirst {α : Type} [DecidableEq α] (l : List α) : List α :=
  dedupFirstAux [] l

/-- Field value `row[index] || ''` used when building row objects: a missing
field defaults to the empty string (and `''` stays `''`). -/
def fieldAt (row : List String) (index : Nat) : String :=
  row.getD index ""

/-- Source row-object construction loop over the headers. Arguments after
the fixed ones: remaining headers, current column index, count of empty
headers seen so far, object built so far. -/
def buildRowAux (emptyCount total : Nat) (row : List String) : List String → Nat → Nat → CSVRow → CSVRow
  | [], _, _, obj => obj
  | h :: hs, index, emptyIdx, obj =>
    if h = "" then
      if emptyCount = 1 then
        if index = total - 1 then
          buildRowAux emptyCount total row hs (index + 1) emptyIdx
            (objSet obj ("col_" ++ toString (index + 1)) (Value.str (fieldAt row index)))
        else
          buildRowAux emptyCount total row hs (index + 1) emptyIdx
            (objSet obj "" (Value.str (fieldAt row index)))
      else
        if emptyIdx = 0 then
          buildRowAux emptyCount total row hs (index + 1) (emptyIdx + 1)
            (objSet obj "" (Value.str (fieldAt row index)))
        else
          buildRowAux emptyCount total row hs (index + 1) (emptyIdx + 1)
            (objSet obj ("col_" ++ toString (emptyIdx + 2)) (Value.str (fieldAt row index)))
    else
      buildRowAux emptyCount total row hs (index + 1) emptyIdx
        (objSet obj h (Value.str (fieldAt row index)))

/-- Source conversion of one tokenized data row into a row object keyed by
the headers. -/
def buildRow (headers : List String) (row : List String) : CSVRow :=
  buildRowAux ((headers.filter (fun h => h = "")).length) headers.length row headers 0 0 []

/-- Source `parseCSV`: run the tokenizer with the chosen delimiter, surface
tokenizer errors, locate the header row past leading blank rows, normalize
and validate headers, build row objects and drop empty rows. -/
def parseCSV (csvContent filePath : String) : Except ParseCSVError CSVData :=
  let results := papaFor csvContent
  if results.errors ≠ [] then
    .error ⟨filePath, .parsing_error,
      "CSV parsing errors found in " ++ filePath ++ ": " ++
        String.intercalate ", " results.errors⟩
  else if results.data = [] then
    .error ⟨filePath, .invalid_data, "No data found in CSV file: " ++ filePath⟩
  else
    match firstNonEmptyRowIndex results.data with
    | none => .ok ⟨[], []⟩
    | some i =>
      let headers := (results.data.getD i []).map stripQuotes
      let dups := duplicateHeaderOccurrences headers
      if dups ≠ [] then
        .error ⟨filePath, .duplicate_headers,
          "CSV file contains duplicate column names: " ++
            String.intercalate ", " (dedupFirst dups) ++
            ". Please fix the file and try again."⟩
      else
        let dataRows := (results.data.drop (i + 1)).map (buildRow headers)
        .ok ⟨filterEmptyRows dataRows, headers⟩

/-- Outcome classification of one comparison row in the source
(`'matched' | 'diff' | 'only left' | 'only right'`). -/
inductive ComparisonStatus where
  | matched : ComparisonStatus
  | diff : ComparisonStatus
  | onlyLeft : ComparisonStatus
  | onlyRight : ComparisonStatus
deriving DecidableEq

/-- Source `ComparisonRow`: displayed key, both side values (undefined when
the side lacks the key) and the status. -/
structure ComparisonRow where
  keyValue : Value
  leftValue : Value
  rightValue : Value
  status : ComparisonStatus
deriving DecidableEq

/-- Summary tally of a comparison in the source. -/
structure ComparisonSummary where
  total : Nat
  matched : Nat
  diff : Nat
  onlyLeft : Nat
  onlyRight : Nat
deriving DecidableEq

/-- Source `ComparisonResult`. -/
structure ComparisonResult where
  rows : List ComparisonRow
  keyColumnName : String
  valueColumnName : String
  summary : ComparisonSummary
deriving DecidableEq

/-- Sentinel string standing for null/undefined keys in the per-side maps,
chosen to collide with no legitimate key (source `NULL_SENTINEL`). -/
def NULL_SENTINEL : String := "\x00__NULL__\x00"

/-- Source `normalizeKey` inside `compareCSVData`: null/undefined map to the
sentinel, otherwise string coercion with optional lowercasing. -/
def normalizeKey (caseInsensitive : Bool) (v : Value) : String :=
  match v with
  | .null => NULL_SENTINEL
  | .undefined => NULL_SENTINEL
  | v => if caseInsensitive then (jsString v).toLower else jsString v

/-- Normalized key of a row under the key column. -/
def rowNormKey (caseInsensitive : Bool) (keyColumn : String) (row : CSVRow) : String :=
  normalizeKey caseInsensitive (getVal row keyColumn)

/-- Per-side map entry of the source: original key value and the value-column
value, both coerced from undefined to null on storage. -/
structure MapEntry where
  keyValue : Value
  value : Value
deriving DecidableEq

/-- Source coercion `x === undefined ? null : x` applied on map insertion. -/
def undefToNull (v : Value) : Value :=
  if v = Value.undefined then Value.null else v

/-- Source per-side map construction: insert every row keyed by its
normalized key; a later row with the same normalized key overwrites the
entry (the JavaScript `Map.set` keeps the original insertion position). -/
def buildMap (rows : List CSVRow) (keyColumn valueColumn : String)
    (caseInsensitive : Bool) : List (String × MapEntry) :=
  rows.foldl (fun m row =>
    objSet m (rowNormKey caseInsensitive keyColumn row)
      ⟨undefToNull (getVal row keyColumn), undefToNull (getVal row valueColumn)⟩) []

/-- The union of normalized keys of both maps in insertion order
(`new Set([...leftMap.keys(), ...rightMap.keys()])`). -/
def allKeysOf (leftMap rightMap : List (String × MapEntry)) : List String :=
  dedupFirst (leftMap.map Prod.fst ++ rightMap.map Prod.fst)

/-- Source value normalization for the match test:
`String(entry?.value ?? '').trim()` (a null value becomes the empty string). -/
def valueCompareString (v : Value) : String :=
  jsTrim (match v with
    | .null => ""
    | .undefined => ""
    | v => jsString v)

/-- Classification of one normalized key of the union, mirroring the loop
body of `compareCSVData`. -/
def classifyKey (leftMap rightMap : List (String × MapEntry)) (k : String) : ComparisonRow :=
  match lookupKey leftMap k, lookupKey rightMap k with
  | some le, none => ⟨le.keyValue, le.value, .undefined, .onlyLeft⟩
  | none, some re => ⟨re.keyValue, .undefined, re.value, .onlyRight⟩
  | some le, some re =>
    ⟨if le.keyValue = Value.null then re.keyValue else le.keyValue,
      le.value, re.value,
      if valueCompareString le.value = valueCompareString re.value then .matched else .diff⟩
  | none, none => ⟨.null, .undefined, .undefined, .matched⟩

/-- The comparison loop: one output row per key, and the four counters
(matched, diff, only-left, only-right) incremented per classification. -/
def compareLoop (leftMap rightMap : List (String × MapEntry)) : List String → List ComparisonRow × Nat × Nat × Nat × Nat
  | [] => ([], 0, 0, 0, 0)
  | k :: ks =>
    let row := classifyKey leftMap rightMap k
    let rest := compareLoop leftMap rightMap ks
    (row :: rest.1,
      (if row.status = .matched then 1 else 0) + rest.2.1,
      (if row.status = .diff then 1 else 0) + rest.2.2.1,
      (if row.status = .onlyLeft then 1 else 0) + rest.2.2.2.1,
      (if row.status = .onlyRight then 1 else 0) + rest.2.2.2.2)

/-- Core of source `compareCSVData` after argument validation. -/
def compareCSVDataCore (leftData rightData : List CSVRow)
    (keyColumn valueColumn : String) (caseInsensitive : Bool) : ComparisonResult :=
  let leftMap := buildMap leftData keyColumn valueColumn caseInsensitive
  let rightMap := buildMap rightData keyColumn valueColumn caseInsensitive
  let res := compareLoop leftMap rightMap (allKeysOf leftMap rightMap)
  ⟨res.1, keyColumn, valueColumn,
    ⟨res.1.length, res.2.1, res.2.2.1, res.2.2.2.1, res.2.2.2.2⟩⟩

/-- Source `compareCSVData`: VLOOKUP-style comparison of two row lists by a
key column and a value column. -/
def compareCSVData (leftData rightData : List CSVRow)
    (keyColumn valueColumn : String) (caseInsensitive : Bool) : Except String ComparisonResult :=
  if jsTrim keyColumn = "" then .error "Key column name cannot be empty"
  else if jsTrim valueColumn = "" then .error "Value column name cannot be empty"
  else .ok (compareCSVDataCore leftData rightData keyColumn valueColumn caseInsensitive)

/-- Number of empty headers strictly before position `i` (the 0-based rank
of an empty header among the empty headers). -/
def emptyRank (headers : List String) (i : Nat) : Nat :=
  ((headers.take i).filter (fun h => h = "")).length

/-- Positional description of the row-mapping key assigned to column `i`,
stated in the vocabulary of the specification: a non-empty header is used
as-is; with exactly one empty header in total, a trailing empty header gets
`col_(i+1)` and a non-trailing one gets the empty-string key; with several
empty headers, the first empty header (rank 0) gets the empty-string key and
an empty header of rank `j ≥ 1` gets `col_(j+2)`. -/
def positionalKey (headers : List String) (i : Nat) : String :=
  let h := headers.getD i ""
  if h ≠ "" then h
  else if (headers.filter (fun h => h = "")).length = 1 then
    if i = headers.length - 1 then "col_" ++ toString (i + 1) else ""
  else if emptyRank headers i = 0 then ""
  else "col_" ++ toString (emptyRank headers i + 2)

/-- Whether `sub` occurs as a contiguous substring of `l`. -/
def subAt : List Char → List Char → Bool
  | [], _ => true
  | _ :: _, [] => false
  | a :: as, b :: bs => a = b && subAt as bs

/-- Whether the first string occurs anywhere inside the second. -/
def strOccurs (sub : String) (s : String) : Bool :=
  go sub.data s.data
where
  go (sub : List Char) : List Char → Bool
    | [] => subAt sub []
    | c :: cs => subAt sub (c :: cs) || go sub cs

instance {ε α : Type} [DecidableEq ε] [DecidableEq α] : DecidableEq (Except ε α)
  | .error e, .error f =>
    if h : e = f then .isTrue (by rw [h]) else .isFalse (by intro hc; cases hc; exact h rfl)
  | .error _, .ok _ => .isFalse (by intro hc; cases hc)
  | .ok _, .error _ => .isFalse (by intro hc; cases hc)
  | .ok a, .ok b =>
    if h : a = b then .isTrue (by rw [h]) else .isFalse (by intro hc; cases hc; exact h rfl)

theorem listMem_iff {α : Type} [DecidableEq α] (x : α) (l : List α) :
    listMem x l = true ↔ x ∈ l := by
  induction l with
  | nil => simp [listMem]
  | cons y ys ih => by_cases h : x = y <;> simp [listMem, h, ih]

theorem listMem_eq_false {α : Type} [DecidableEq α] (x : α) (l : List α) :
    listMem x l = false ↔ x ∉ l := by
  rw [← Bool.not_eq_true, not_iff_not, listMem_iff]

theorem nonEmptyValue_iff (v : Value) :
    nonEmptyValue v = true ↔
      v ≠ Value.null ∧ v ≠ Value.undefined ∧ jsTrim (jsString v) ≠ "" := by
  simp [nonEmptyValue, and_assoc]

/-- C8: `filterEmptyRows` returns exactly the input rows having at least one
value that is neither null nor undefined and whose string coercion does not
trim to the empty string, preserving relative order; a row whose only
non-blank value is the number 0 is kept, and a row of only nulls, undefineds
and whitespace-only strings is dropped. -/
theorem filterEmptyRows_spec (data : List CSVRow) :
    (filterEmptyRows data).Sublist data ∧
    (∀ r, r ∈ filterEmptyRows data ↔ r ∈ data ∧
      ∃ p ∈ r, p.2 ≠ Value.null ∧ p.2 ≠ Value.undefined ∧ jsTrim (jsString p.2) ≠ "") ∧
    filterEmptyRows
      [[("name", Value.str "   "), ("age", Value.num 0)],
       [("a", Value.null), ("b", Value.undefined), ("c", Value.str "  ")]] =
      [[("name", Value.str "   "), ("age", Value.num 0)]] := by
  refine ⟨List.filter_sublist _, ?_, by decide⟩
  intro r
  rw [filterEmptyRows, List.mem_filter]
  refine and_congr_right fun _ => ?_
  rw [List.any_eq_true]
  constructor
  · rintro ⟨v, hv, hne⟩
    rcases List.mem_map.mp hv with ⟨p, hp, rfl⟩
    exact ⟨p, hp, (nonEmptyValue_iff p.2).mp hne⟩
  · rintro ⟨p, hp, h⟩
    exact ⟨p.2, List.mem_map.mpr ⟨p, hp, rfl⟩, (nonEmptyValue_iff p.2).mpr h⟩

/-- C2 counterexample: a left row whose value under the filter column is null
is dropped under mode 'exclude' (and kept under 'include') once any right row
has a null value there, although the column is non-empty and present in the
right rows — so the membership set does not exclude null/undefined values. -/
theorem filterCsvData_null_counterexample :
    jsTrim "c" ≠ "" ∧ hasKey [("c", Value.null)] "c" = true ∧
    filterCsvData [[("c", Value.null)]] [[("c", Value.null)]] "c" .exclude false = .ok [] ∧
    filterCsvData [[("c", Value.null)]] [[("c", Value.null)]] "c" .incl false =
      .ok [[("c", Value.null)]] := by
  decide

/-- C2 amended: a null/undefined left value joins the membership set as the
JavaScript `undefined` marker, so it matches exactly when some right row has
a null, undefined or absent value under the column; provided every right row
has a defined non-null value there, a left row with a null or undefined value
is kept under mode 'exclude' and dropped under mode 'include'. -/
theorem filterCsvData_null_amended (left right : List CSVRow) (column : String) (ci : Bool)
    (hcol : jsTrim column ≠ "")
    (hpresent : right.any (fun row => hasKey row column) = true)
    (hnonnull : ∀ r ∈ right, getVal r column ≠ Value.null ∧ getVal r column ≠ Value.undefined) :
    ∀ lr ∈ left, (getVal lr column = Value.null ∨ getVal lr column = Value.undefined) →
      (∃ res, filterCsvData left right column .exclude ci = .ok res ∧ lr ∈ res) ∧
      (∃ res, filterCsvData left right column .incl ci = .ok res ∧ lr ∉ res) := by
  intro lr hlr hnull
  have hleftne : ¬ left = [] := by
    intro h; rw [h] at hlr; simp at hlr
  have hrightne : ¬ right = [] := by
    intro h; rw [h] at hpresent; simp at hpresent
  have hnv : normalizeValue ci (getVal lr column) = none := by
    rcases hnull with h | h <;> rw [h] <;> rfl
  have hsome : ∀ r ∈ right, normalizeValue ci (getVal r column) ≠ none := by
    intro r hr
    rcases hnonnull r hr with ⟨h1, h2⟩
    cases hval : getVal r column <;> simp [normalizeValue] <;> simp [hval] at h1 h2
  have hmem : listMem (normalizeValue ci (getVal lr column))
      (right.map fun row => normalizeValue ci (getVal row column)) = false := by
    rw [hnv, listMem_eq_false]
    intro hcon
    rcases List.mem_map.mp hcon with ⟨r, hr, heq⟩
    exact hsome r hr heq
  constructor
  · rw [filterCsvData, if_neg hcol, if_neg hleftne, if_neg hrightne,
      if_neg (by simp [hpresent])]
    exact ⟨_, rfl, List.mem_filter.mpr ⟨hlr, by simp [hmem]⟩⟩
  · rw [filterCsvData, if_neg hcol, if_neg hleftne, if_neg hrightne,
      if_neg (by simp [hpresent])]
    refine ⟨_, rfl, fun hcon => ?_⟩
    have := (List.mem_filter.mp hcon).2
    rw [hmem] at this
    exact Bool.false_ne_true this

/-- C2 amended, witness at a concrete input: the column is "c", the right
rows all carry the string "x" there, and the left null row survives
'exclude' and is absent from 'include'. -/
theorem filterCsvData_null_amended_witness :
    (jsTrim "c" ≠ "") ∧
    ([[("c", Value.str "x")]] : List CSVRow).any (fun row => hasKey row "c") = true ∧
    (∀ r ∈ ([[("c", Value.str "x")]] : List CSVRow),
      getVal r "c" ≠ Value.null ∧ getVal r "c" ≠ Value.undefined) ∧
    ([("c", Value.null)] ∈ ([[("c", Value.null)]] : List CSVRow)) ∧
    ((∃ res, filterCsvData [[("c", Value.null)]] [[("c", Value.str "x")]] "c" .exclude false = .ok res ∧
        [("c", Value.null)] ∈ res) ∧
      (∃ res, filterCsvData [[("c", Value.null)]] [[("c", Value.str "x")]] "c" .incl false = .ok res ∧
        [("c", Value.null)] ∉ res)) :=
  ⟨by decide, by decide, by decide, by decide,
    filterCsvData_null_amended [[("c", Value.null)]] [[("c", Value.str "x")]] "c" false
      (by decide) (by decide) (by decide) [("c", Value.null)] (by decide) (Or.inl (by decide))⟩

theorem count_filter_not_add {α : Type} [BEq α] (p : α → Bool) (l : List α) (a : α) :
    (l.filter p).count a + (l.filter (fun x => ! p x)).count a = l.count a := by
  induction l with
  | nil => simp
  | cons x xs ih =>
    rw [List.filter_cons, List.filter_cons, List.count_cons]
    by_cases hp : p x
    · rw [if_pos (by simp [hp]), if_neg (by simp [hp]), List.count_cons]
      cases hax : (x == a) <;> simp [hax] <;> omega
    · rw [if_neg (by simp [hp]), if_pos (by simp [hp]), List.count_cons]
      cases hax : (x == a) <;> simp [hax] <;> omega

/-- C6: whenever the column name is non-empty after trimming and appears in
some right row, the 'exclude' and 'include' results of `filterCsvData`
partition the left rows exactly: both are order-preserving subsequences of
the left list, each left row lands in exactly one of the two (counted with
multiplicity), and the two results are disjoint. -/
theorem filterCsvData_partition (left right : List CSVRow) (column : String) (ci : Bool)
    (hcol : jsTrim column ≠ "")
    (hpresent : right.any (fun row => hasKey row column) = true) :
    ∃ ex inc, filterCsvData left right column .exclude ci = .ok ex ∧
      filterCsvData left right column .incl ci = .ok inc ∧
      ex.Sublist left ∧ inc.Sublist left ∧
      (∀ r, ex.count r + inc.count r = left.count r) ∧
      (∀ r, r ∈ ex → r ∉ inc) := by
  have hrightne : ¬ right = [] := by
    intro h; rw [h] at hpresent; simp at hpresent
  by_cases hleft : left = []
  · subst hleft
    have hex : filterCsvData [] right column .exclude ci = .ok [] := by
      rw [filterCsvData, if_neg hcol]; simp
    have hinc : filterCsvData [] right column .incl ci = .ok [] := by
      rw [filterCsvData, if_neg hcol]; simp
    exact ⟨[], [], hex, hinc, List.Sublist.refl _, List.Sublist.refl _, by simp, by simp⟩
  · have hex : filterCsvData left right column .exclude ci = .ok (left.filter fun row =>
        ! listMem (normalizeValue ci (getVal row column))
          (right.map fun r => normalizeValue ci (getVal r column))) := by
      rw [filterCsvData, if_neg hcol, if_neg hleft, if_neg hrightne,
        if_neg (by simp [hpresent])]
    have hinc : filterCsvData left right column .incl ci = .ok (left.filter fun row =>
        listMem (normalizeValue ci (getVal row column))
          (right.map fun r => normalizeValue ci (getVal r column))) := by
      rw [filterCsvData, if_neg hcol, if_neg hleft, if_neg hrightne,
        if_neg (by simp [hpresent])]
    refine ⟨_, _, hex, hinc, List.filter_sublist _, List.filter_sublist _, ?_, ?_⟩
    · intro r
      rw [Nat.add_comm]
      exact count_filter_not_add _ left r
    · intro r hexm hincm
      have h1 := (List.mem_filter.mp hexm).2
      have h2 := (List.mem_filter.mp hincm).2
      rw [h2] at h1
      simp at h1

/-- C6 witness at a concrete input: left has a matching and a non-matching
row against the right column "name". -/
theorem filterCsvData_partition_witness :
    (jsTrim "name" ≠ "") ∧
    ([[("name", Value.str "Alice")]] : List CSVRow).any (fun row => hasKey row "name") = true ∧
    (∃ ex inc,
      filterCsvData [[("name", Value.str "Alice")], [("name", Value.str "Bob")]]
        [[("name", Value.str "Alice")]] "name" .exclude false = .ok ex ∧
      filterCsvData [[("name", Value.str "Alice")], [("name", Value.str "Bob")]]
        [[("name", Value.str "Alice")]] "name" .incl false = .ok inc ∧
      ex.Sublist [[("name", Value.str "Alice")], [("name", Value.str "Bob")]] ∧
      inc.Sublist [[("name", Value.str "Alice")], [("name", Value.str "Bob")]] ∧
      (∀ r, ex.count r + inc.count r =
        ([[("name", Value.str "Alice")], [("name", Value.str "Bob")]] : List CSVRow).count r) ∧
      (∀ r, r ∈ ex → r ∉ inc)) :=
  ⟨by decide, by decide,
    filterCsvData_partition [[("name", Value.str "Alice")], [("name", Value.str "Bob")]]
      [[("name", Value.str "Alice")]] "name" false (by decide) (by decide)⟩

theorem objSet_map_fst_of_mem {α : Type} (m : List (String × α)) (k : String) (v : α)
    (h : k ∈ m.map Prod.fst) : (objSet m k v).map Prod.fst = m.map Prod.fst := by
  induction m with
  | nil => simp at h
  | cons p rest ih =>
    obtain ⟨k', v'⟩ := p
    by_cases hk : k' = k
    · simp [objSet, hk]
    · have hmem : k ∈ rest.map Prod.fst := by
        rw [List.map_cons, List.mem_cons] at h
        rcases h with h' | h'
        · exact absurd h'.symm hk
        · exact h'
      simp [objSet, hk, ih hmem]

theorem objSet_map_fst_of_not_mem {α : Type} (m : List (String × α)) (k : String) (v : α)
    (h : k ∉ m.map Prod.fst) : (objSet m k v).map Prod.fst = m.map Prod.fst ++ [k] := by
  induction m with
  | nil => simp [objSet]
  | cons p rest ih =>
    obtain ⟨k', v'⟩ := p
    have hk : k' ≠ k := by
      intro hc; exact h (by simp [hc])
    have hrest : k ∉ rest.map Prod.fst := fun hc => h (by simp [hc])
    simp [objSet, hk, ih hrest]

theorem mem_objSet_map_fst {α : Type} (m : List (String × α)) (k k' : String) (v : α) :
    k' ∈ (objSet m k v).map Prod.fst ↔ k' ∈ m.map Prod.fst ∨ k' = k := by
  by_cases h : k ∈ m.map Prod.fst
  · rw [objSet_map_fst_of_mem m k v h]
    constructor
    · exact Or.inl
    · rintro (h' | rfl) <;> [exact h'; exact h]
  · rw [objSet_map_fst_of_not_mem m k v h]
    simp [List.mem_append]

theorem nodup_objSet_map_fst {α : Type} (m : List (String × α)) (k : String) (v : α)
    (h : (m.map Prod.fst).Nodup) : ((objSet m k v).map Prod.fst).Nodup := by
  by_cases hm : k ∈ m.map Prod.fst
  · rw [objSet_map_fst_of_mem m k v hm]; exact h
  · rw [objSet_map_fst_of_not_mem m k v hm]
    simp [List.nodup_append, h, hm]

theorem mem_objSet {α : Type} (m : List (String × α)) (k : String) (v : α) (p : String × α)
    (h : p ∈ objSet m k v) : p ∈ m ∨ p = (k, v) := by
  induction m with
  | nil => simpa [objSet] using h
  | cons q rest ih =>
    obtain ⟨k', v'⟩ := q
    by_cases hk : k' = k
    · rw [objSet, if_pos hk] at h
      rcases List.mem_cons.mp h with h' | h'
      · exact Or.inr h'
      · exact Or.inl (List.mem_cons_of_mem _ h')
    · rw [objSet, if_neg hk] at h
      rcases List.mem_cons.mp h with h' | h'
      · exact Or.inl (h' ▸ List.mem_cons_self _ _)
      · rcases ih h' with h'' | h''
        · exact Or.inl (List.mem_cons_of_mem _ h'')
        · exact Or.inr h''

theorem foldl_objSet_mem_fst {α β : Type} (f : β → String) (g : β → α) (rows : List β) :
    ∀ (m0 : List (String × α)) (k : String),
      (k ∈ ((rows.foldl (fun m row => objSet m (f row) (g row)) m0).map Prod.fst)) ↔
        k ∈ m0.map Prod.fst ∨ k ∈ rows.map f := by
  induction rows with
  | nil => simp
  | cons r rs ih =>
    intro m0 k
    rw [List.foldl_cons, ih, mem_objSet_map_fst]
    simp only [List.map_cons, List.mem_cons]
    tauto

theorem foldl_objSet_nodup_fst {α β : Type} (f : β → String) (g : β → α) (rows : List β) :
    ∀ (m0 : List (String × α)), (m0.map Prod.fst).Nodup →
      (((rows.foldl (fun m row => objSet m (f row) (g row)) m0).map Prod.fst)).Nodup := by
  induction rows with
  | nil => exact fun m0 h => h
  | cons r rs ih =>
    intro m0 h
    rw [List.foldl_cons]
    exact ih _ (nodup_objSet_map_fst _ _ _ h)

theorem foldl_objSet_entries {α β : Type} (f : β → String) (g : β → α) (P : α → Prop)
    (hg : ∀ b, P (g b)) (rows : List β) :
    ∀ (m0 : List (String × α)), (∀ p ∈ m0, P p.2) →
      ∀ p ∈ rows.foldl (fun m row => objSet m (f row) (g row)) m0, P p.2 := by
  induction rows with
  | nil => exact fun m0 h => h
  | cons r rs ih =>
    intro m0 h
    rw [List.foldl_cons]
    refine ih _ fun p hp => ?_
    rcases mem_objSet _ _ _ p hp with h' | h'
    · exact h p h'
    · rw [h']; exact hg r

theorem buildMap_eq_foldl (rows : List CSVRow) (kc vc : String) (ci : Bool) :
    buildMap rows kc vc ci = rows.foldl (fun m row => objSet m (rowNormKey ci kc row)
      ⟨undefToNull (getVal row kc), undefToNull (getVal row vc)⟩) [] := rfl

theorem mem_buildMap_fst (rows : List CSVRow) (kc vc : String) (ci : Bool) (k : String) :
    k ∈ (buildMap rows kc vc ci).map Prod.fst ↔ k ∈ rows.map (rowNormKey ci kc) := by
  rw [buildMap_eq_foldl, foldl_objSet_mem_fst]
  simp

theorem nodup_buildMap_fst (rows : List CSVRow) (kc vc : String) (ci : Bool) :
    ((buildMap rows kc vc ci).map Prod.fst).Nodup := by
  rw [buildMap_eq_foldl]
  exact foldl_objSet_nodup_fst _ _ rows [] (by simp)

theorem undefToNull_ne_undefined (v : Value) : undefToNull v ≠ Value.undefined := by
  by_cases h : v = Value.undefined <;> simp [undefToNull, h]

theorem buildMap_entries (rows : List CSVRow) (kc vc : String) (ci : Bool) :
    ∀ p ∈ buildMap rows kc vc ci, p.2.keyValue ≠ Value.undefined ∧ p.2.value ≠ Value.undefined := by
  rw [buildMap_eq_foldl]
  refine foldl_objSet_entries _ _
    (fun e : MapEntry => e.keyValue ≠ Value.undefined ∧ e.value ≠ Value.undefined) ?_ rows [] (by simp)
  intro b
  exact ⟨undefToNull_ne_undefined _, undefToNull_ne_undefined _⟩

theorem mem_dedupFirstAux {α : Type} [DecidableEq α] (l : List α) :
    ∀ (seen : List α) (x : α), x ∈ dedupFirstAux seen l ↔ x ∈ l ∧ x ∉ seen := by
  induction l with
  | nil => intro seen x; simp [dedupFirstAux]
  | cons y ys ih =>
    intro seen x
    by_cases hy : listMem y seen
    · rw [dedupFirstAux, if_pos hy, ih]
      have hyseen : y ∈ seen := (listMem_iff _ _).mp hy
      constructor
      · rintro ⟨h1, h2⟩
        exact ⟨List.mem_cons_of_mem _ h1, h2⟩
      · rintro ⟨h1, h2⟩
        rcases List.mem_cons.mp h1 with rfl | h1'
        · exact absurd hyseen h2
        · exact ⟨h1', h2⟩
    · rw [dedupFirstAux, if_neg hy]
      have hyseen : y ∉ seen := fun hc => hy ((listMem_iff _ _).mpr hc)
      constructor
      · intro hmem
        rcases List.mem_cons.mp hmem with rfl | h1
        · exact ⟨List.mem_cons_self _ _, hyseen⟩
        · rcases (ih _ _).mp h1 with ⟨h2, h3⟩
          exact ⟨List.mem_cons_of_mem _ h2, fun hc => h3 (List.mem_cons_of_mem _ hc)⟩
      · rintro ⟨h1, h2⟩
        rcases List.mem_cons.mp h1 with rfl | h1'
        · exact List.mem_cons_self _ _
        · by_cases hxy : x = y
          · subst hxy; exact List.mem_cons_self _ _
          · refine List.mem_cons_of_mem _ ((ih _ _).mpr ⟨h1', fun hc => ?_⟩)
            rcases List.mem_cons.mp hc with h | h
            · exact hxy h
            · exact h2 h

theorem mem_dedupFirst {α : Type} [DecidableEq α] (l : List α) (x : α) :
    x ∈ dedupFirst l ↔ x ∈ l := by
  rw [dedupFirst, mem_dedupFirstAux]
  simp

theorem nodup_dedupFirstAux {α : Type} [DecidableEq α] (l : List α) :
    ∀ (seen : List α), (dedupFirstAux seen l).Nodup := by
  induction l with
  | nil => intro seen; simp [dedupFirstAux]
  | cons y ys ih =>
    intro seen
    by_cases hy : listMem y seen
    · rw [dedupFirstAux, if_pos hy]; exact ih seen
    · rw [dedupFirstAux, if_neg hy]
      refine List.nodup_cons.mpr ⟨fun hc => ?_, ih _⟩
      have := (mem_dedupFirstAux ys _ y).mp hc
      exact this.2 (by simp)

theorem nodup_dedupFirst {α : Type} [DecidableEq α] (l : List α) : (dedupFirst l).Nodup :=
  nodup_dedupFirstAux l []

theorem compareLoop_length (lm rm : List (String × MapEntry)) (ks : List String) :
    (compareLoop lm rm ks).1.length = ks.length := by
  induction ks with
  | nil => rfl
  | cons k ks ih => simp [compareLoop, ih]

theorem compareLoop_counts (lm rm : List (String × MapEntry)) (ks : List String) :
    (compareLoop lm rm ks).2.1 + (compareLoop lm rm ks).2.2.1 +
      (compareLoop lm rm ks).2.2.2.1 + (compareLoop lm rm ks).2.2.2.2 = ks.length := by
  induction ks with
  | nil => rfl
  | cons k ks ih =>
    cases hst : (classifyKey lm rm k).status <;>
      simp [compareLoop, hst] <;> omega

theorem mem_compareLoop (lm rm : List (String × MapEntry)) (ks : List String)
    (row : ComparisonRow) (h : row ∈ (compareLoop lm rm ks).1) :
    ∃ k ∈ ks, row = classifyKey lm rm k := by
  induction ks with
  | nil => simp [compareLoop] at h
  | cons k ks ih =>
    rw [compareLoop] at h
    rcases List.mem_cons.mp h with h' | h'
    · exact ⟨k, by simp, h'⟩
    · rcases ih h' with ⟨k', hk', heq⟩
      exact ⟨k', by simp [hk'], heq⟩

theorem compareCSVData_eq_ok (left right : List CSVRow) (kc vc : String) (ci : Bool)
    (hk : jsTrim kc ≠ "") (hv : jsTrim vc ≠ "") :
    compareCSVData left right kc vc ci = .ok (compareCSVDataCore left right kc vc ci) := by
  rw [compareCSVData, if_neg hk, if_neg hv]

/-- C1: for non-empty key and value column names, the comparison summary
reconciles exactly: `total` equals the number of output rows, which equals
`matched + diff + onlyLeft + onlyRight`, and `total` is the number of unique
normalized keys across both inputs. -/
theorem compareCSVData_summary_invariant (left right : List CSVRow) (kc vc : String) (ci : Bool)
    (hk : jsTrim kc ≠ "") (hv : jsTrim vc ≠ "") :
    ∃ res, compareCSVData left right kc vc ci = .ok res ∧
      res.summary.total = res.rows.length ∧
      res.rows.length = res.summary.matched + res.summary.diff +
        res.summary.onlyLeft + res.summary.onlyRight ∧
      res.summary.total = ((left ++ right).map (rowNormKey ci kc)).toFinset.card := by
  refine ⟨compareCSVDataCore left right kc vc ci, compareCSVData_eq_ok _ _ _ _ _ hk hv, rfl, ?_, ?_⟩
  · show (compareLoop _ _ _).1.length = _
    rw [compareLoop_length]
    exact (compareLoop_counts _ _ _).symm
  · show (compareLoop _ _ _).1.length = _
    rw [compareLoop_length]
    have hnd : (allKeysOf (buildMap left kc vc ci) (buildMap right kc vc ci)).Nodup :=
      nodup_dedupFirst _
    have hmem : ∀ k, k ∈ allKeysOf (buildMap left kc vc ci) (buildMap right kc vc ci) ↔
        k ∈ (left ++ right).map (rowNormKey ci kc) := by
      intro k
      rw [allKeysOf, mem_dedupFirst, List.mem_append, mem_buildMap_fst, mem_buildMap_fst,
        List.map_append, List.mem_append]
    have hfin : (allKeysOf (buildMap left kc vc ci) (buildMap right kc vc ci)).toFinset =
        ((left ++ right).map (rowNormKey ci kc)).toFinset := by
      ext x
      rw [List.mem_toFinset, List.mem_toFinset, hmem]
    rw [← List.toFinset_card_of_nodup hnd, hfin]

/-- C1 witness at a concrete input: one left row, one right row, key column
"k" and value column "v". -/
theorem compareCSVData_summary_invariant_witness :
    (jsTrim "k" ≠ "") ∧ (jsTrim "v" ≠ "") ∧
    (∃ res, compareCSVData [[("k", Value.str "a"), ("v", Value.str "1")]]
        [[("k", Value.str "b"), ("v", Value.str "2")]] "k" "v" false = .ok res ∧
      res.summary.total = res.rows.length ∧
      res.rows.length = res.summary.matched + res.summary.diff +
        res.summary.onlyLeft + res.summary.onlyRight ∧
      res.summary.total =
        ((([[("k", Value.str "a"), ("v", Value.str "1")]] : List CSVRow) ++
          [[("k", Value.str "b"), ("v", Value.str "2")]]).map (rowNormKey false "k")).toFinset.card) :=
  ⟨by decide, by decide,
    compareCSVData_summary_invariant [[("k", Value.str "a"), ("v", Value.str "1")]]
      [[("k", Value.str "b"), ("v", Value.str "2")]] "k" "v" false (by decide) (by decide)⟩

/-- C9: in every result of `compareCSVData`, a row classified 'only right'
carries the undefined left value and a row classified 'only left' carries the
undefined right value, while the per-side map entries themselves never store
an undefined key or value (undefined is coerced to null on insertion). -/
theorem compareCSVData_only_side_undefined (left right : List CSVRow) (kc vc : String) (ci : Bool)
    (hk : jsTrim kc ≠ "") (hv : jsTrim vc ≠ "") :
    ∃ res, compareCSVData left right kc vc ci = .ok res ∧
      (∀ row ∈ res.rows,
        (row.status = .onlyRight → row.leftValue = Value.undefined) ∧
        (row.status = .onlyLeft → row.rightValue = Value.undefined)) ∧
      (∀ p ∈ buildMap left kc vc ci, p.2.keyValue ≠ Value.undefined ∧ p.2.value ≠ Value.undefined) ∧
      (∀ p ∈ buildMap right kc vc ci, p.2.keyValue ≠ Value.undefined ∧ p.2.value ≠ Value.undefined) := by
  refine ⟨compareCSVDataCore left right kc vc ci, compareCSVData_eq_ok _ _ _ _ _ hk hv, ?_,
    buildMap_entries _ _ _ _, buildMap_entries _ _ _ _⟩
  intro row hrow
  rcases mem_compareLoop _ _ _ row hrow with ⟨k, _, rfl⟩
  rw [classifyKey]
  rcases hl : lookupKey (buildMap left kc vc ci) k with _ | le <;>
    rcases hr : lookupKey (buildMap right kc vc ci) k with _ | re
  · exact ⟨(fun h => by cases h), (fun h => by cases h)⟩
  · exact ⟨(fun _ => rfl), (fun h => by cases h)⟩
  · exact ⟨(fun h => by cases h), (fun _ => rfl)⟩
  · refine ⟨fun h => ?_, fun h => ?_⟩ <;>
      by_cases hc : valueCompareString le.value = valueCompareString re.value <;>
        simp [hc] at h

/-- C9 witness at a concrete input: the left row has key "a", the right row
key "b", so the result holds one 'only left' and one 'only right' row. -/
theorem compareCSVData_only_side_undefined_witness :
    (jsTrim "k" ≠ "") ∧ (jsTrim "v" ≠ "") ∧
    (∃ res, compareCSVData [[("k", Value.str "a"), ("v", Value.str "1")]]
        [[("k", Value.str "b"), ("v", Value.str "2")]] "k" "v" false = .ok res ∧
      (∀ row ∈ res.rows,
        (row.status = .onlyRight → row.leftValue = Value.undefined) ∧
        (row.status = .onlyLeft → row.rightValue = Value.undefined)) ∧
      (∀ p ∈ buildMap [[("k", Value.str "a"), ("v", Value.str "1")]] "k" "v" false,
        p.2.keyValue ≠ Value.undefined ∧ p.2.value ≠ Value.undefined) ∧
      (∀ p ∈ buildMap [[("k", Value.str "b"), ("v", Value.str "2")]] "k" "v" false,
        p.2.keyValue ≠ Value.undefined ∧ p.2.value ≠ Value.undefined)) :=
  ⟨by decide, by decide,
    compareCSVData_only_side_undefined [[("k", Value.str "a"), ("v", Value.str "1")]]
      [[("k", Value.str "b"), ("v", Value.str "2")]] "k" "v" false (by decide) (by decide)⟩

/-- C10: with caseInsensitive set, lowercasing applies only to key
normalization, never to the compared values: an output row whose two sides
are both present and whose trimmed coerced values differ — in particular
when they differ only in letter case — is classified 'diff', not 'matched'. -/
theorem compareCSVData_case_insensitive_values_diff (left right : List CSVRow) (kc vc : String)
    (hk : jsTrim kc ≠ "") (hv : jsTrim vc ≠ "") :
    ∃ res, compareCSVData left right kc vc true = .ok res ∧
      ∀ row ∈ res.rows, row.leftValue ≠ Value.undefined → row.rightValue ≠ Value.undefined →
        valueCompareString row.leftValue ≠ valueCompareString row.rightValue →
        (valueCompareString row.leftValue).toLower = (valueCompareString row.rightValue).toLower →
        row.status = ComparisonStatus.diff := by
  refine ⟨compareCSVDataCore left right kc vc true, compareCSVData_eq_ok _ _ _ _ _ hk hv, ?_⟩
  intro row hrow hlv hrv hne _
  rcases mem_compareLoop _ _ _ row hrow with ⟨k, _, rfl⟩
  rcases hle : lookupKey (buildMap left kc vc true) k with _ | le <;>
    rcases hre : lookupKey (buildMap right kc vc true) k with _ | re <;>
    simp only [classifyKey, hle, hre] at hlv hrv hne ⊢ <;>
    first
      | exact absurd rfl hlv
      | exact absurd rfl hrv
      | rw [if_neg hne]

/-- C10 witness at a concrete input: keys "x" and "X" collide
case-insensitively while the values "ABC" and "abc" differ only in case. -/
theorem compareCSVData_case_insensitive_values_diff_witness :
    (jsTrim "k" ≠ "") ∧ (jsTrim "v" ≠ "") ∧
    (∃ res, compareCSVData [[("k", Value.str "x"), ("v", Value.str "ABC")]]
        [[("k", Value.str "X"), ("v", Value.str "abc")]] "k" "v" true = .ok res ∧
      ∀ row ∈ res.rows, row.leftValue ≠ Value.undefined → row.rightValue ≠ Value.undefined →
        valueCompareString row.leftValue ≠ valueCompareString row.rightValue →
        (valueCompareString row.leftValue).toLower = (valueCompareString row.rightValue).toLower →
        row.status = ComparisonStatus.diff) :=
  ⟨by decide, by decide,
    compareCSVData_case_insensitive_values_diff [[("k", Value.str "x"), ("v", Value.str "ABC")]]
      [[("k", Value.str "X"), ("v", Value.str "abc")]] "k" "v" (by decide) (by decide)⟩

theorem jsTrimList_cons_of_ws (c : Char) (l : List Char) (h : jsWhitespace c = true) :
    jsTrimList (c :: l) = jsTrimList l := by
  rw [jsTrimList, jsTrimList, List.dropWhile_cons, if_pos h]

theorem jsTrimList_stripBOM (cs : List Char) :
    jsTrimList (stripBOM cs) = jsTrimList cs := by
  cases cs with
  | nil => rfl
  | cons c cs' =>
    rw [stripBOM]
    by_cases hc : c = '\uFEFF'
    · rw [if_pos hc, hc, jsTrimList_cons_of_ws _ _ (by decide)]
    · rw [if_neg hc]

theorem firstNonEmptyRowIndex_eq_none (rows : List (List String))
    (h : ∀ row ∈ rows, ∀ v ∈ row, jsTrim v = "") :
    firstNonEmptyRowIndex rows = none := by
  induction rows with
  | nil => rfl
  | cons r rs ih =>
    rw [firstNonEmptyRowIndex, if_neg, ih fun row hrow => h row (List.mem_cons_of_mem _ hrow)]
    · rfl
    · rw [strRowNonEmpty]
      simp only [List.any_eq_true, not_exists, not_and, decide_eq_true_eq]
      intro v hv hc
      exact hc (h r (List.mem_cons_self _ _) v hv)

/-- C5: `parseCSV` fails with kind `parsing_error` on every input that is
empty or whitespace-only after stripping the byte-order mark (the delimiter
auto-detection error path), while an input whose tokenized rows survive and
are all blank yields the empty Table (no headers, no data) without error;
the two cases are never conflated. -/
theorem parseCSV_empty_vs_blank (content label : String) :
    (jsTrim (stripBOMStr content) = "" →
      ∃ msg, parseCSV content label = .error ⟨label, .parsing_error, msg⟩) ∧
    ((papaFor content).errors = [] → (papaFor content).data ≠ [] →
      (∀ row ∈ (papaFor content).data, ∀ v ∈ row, jsTrim v = "") →
      parseCSV content label = .ok ⟨[], []⟩) := by
  constructor
  · intro h
    have hlist : jsTrimList (stripBOM content.data) = [] := congrArg String.data h
    have hraw : jsTrimList content.data = [] := by
      rw [← jsTrimList_stripBOM]; exact hlist
    have htrim : jsTrim content = "" := congrArg String.mk hraw
    have hforced : forcedDelimiter content = none := by
      rw [forcedDelimiter, hasDelimitersOpt, if_pos htrim]
    have hpapa : papaFor content =
        ⟨skipEmptyLines (tokenize ',' (stripBOM content.data)), [autoDetectFailureMsg]⟩ := by
      rw [papaFor, hforced, papaParse, guessDelimiter, if_pos hlist]
    refine ⟨"CSV parsing errors found in " ++ label ++ ": " ++
      String.intercalate ", " [autoDetectFailureMsg], ?_⟩
    rw [parseCSV, hpapa, if_pos (by simp)]
  · intro hnoerr hne hblank
    have hidx : firstNonEmptyRowIndex (papaFor content).data = none :=
      firstNonEmptyRowIndex_eq_none _ hblank
    simp only [parseCSV, hnoerr, hidx, ne_eq, not_true_eq_false, if_false,
      reduceCtorEq, reduceIte, hne, not_false_eq_true, if_true]

/-- C5 witness at concrete inputs: a whitespace-only content yields a
`parsing_error`, while a lone comma tokenizes to one blank two-field row and
yields the empty Table. -/
theorem parseCSV_empty_vs_blank_witness :
    (jsTrim (stripBOMStr " ") = "" ∧
      ∃ msg, parseCSV " " "a.csv" = .error ⟨"a.csv", .parsing_error, msg⟩) ∧
    ((papaFor ",").errors = [] ∧ (papaFor ",").data ≠ [] ∧
      parseCSV "," "b.csv" = .ok ⟨[], []⟩) :=
  ⟨⟨by decide, (parseCSV_empty_vs_blank " " "a.csv").1 (by decide)⟩,
    ⟨by decide, by decide,
      (parseCSV_empty_vs_blank "," "b.csv").2 (by decide) (by decide) (by decide)⟩⟩

/-- C7 counterexample: on a text that itself begins with a byte-order mark,
prepending one more changes the headers — only a single mark is stripped and
the second becomes part of the first header — so the outputs differ. -/
theorem parseCSV_bom_counterexample :
    ("\uFEFF" ++ "\uFEFFa,b" = "\uFEFF\uFEFFa,b") ∧
    parseCSV "\uFEFF\uFEFFa,b" "t.csv" = .ok ⟨[], ["\uFEFFa", "b"]⟩ ∧
    parseCSV "\uFEFFa,b" "t.csv" = .ok ⟨[], ["a", "b"]⟩ ∧
    parseCSV ("\uFEFF" ++ "\uFEFFa,b") "t.csv" ≠ parseCSV "\uFEFFa,b" "t.csv" := by
  decide

/-- C7 amended: prepending a single byte-order-mark character to a text that
does not itself begin with one produces output identical to parsing the text
directly: the mark is stripped before any other processing. -/
theorem parseCSV_bom_transparent (t label : String)
    (h : t.data.head? ≠ some '\uFEFF') :
    parseCSV ("\uFEFF" ++ t) label = parseCSV t label := by
  have hdata : ("\uFEFF" ++ t).data = '\uFEFF' :: t.data := by
    rw [String.data_append]; rfl
  have hstrip1 : stripBOM ("\uFEFF" ++ t).data = t.data := by
    rw [hdata, stripBOM, if_pos rfl]
  have hstrip2 : stripBOM t.data = t.data := by
    cases ht : t.data with
    | nil => rfl
    | cons c cs =>
      rw [stripBOM, if_neg]
      intro hc
      exact h (by rw [ht, hc]; rfl)
  have htrim : jsTrim ("\uFEFF" ++ t) = jsTrim t := by
    rw [jsTrim, jsTrim, hdata, jsTrimList_cons_of_ws _ _ (by decide)]
  have hdelim : ("\uFEFF" ++ t).data.any (fun c => listMem c delimiterChars) =
      t.data.any (fun c => listMem c delimiterChars) := by
    rw [hdata, List.any_cons]
    simp [listMem, delimiterChars]
  have hopts : hasDelimitersOpt ("\uFEFF" ++ t) = hasDelimitersOpt t := by
    rw [hasDelimitersOpt, hasDelimitersOpt, htrim, hdelim]
  have hforced : forcedDelimiter ("\uFEFF" ++ t) = forcedDelimiter t := by
    rw [forcedDelimiter, forcedDelimiter, hopts]
  have hpapa : papaFor ("\uFEFF" ++ t) = papaFor t := by
    rw [papaFor, papaFor, hforced, papaParse.eq_def, papaParse.eq_def, hstrip1, hstrip2]
  rw [parseCSV, parseCSV, hpapa]

/-- C7 amended, witness at a concrete input without a leading mark. -/
theorem parseCSV_bom_transparent_witness :
    (("name,age").data.head? ≠ some '\uFEFF') ∧
    parseCSV ("\uFEFF" ++ "name,age") "t.csv" = parseCSV "name,age" "t.csv" :=
  ⟨by decide, parseCSV_bom_transparent "name,age" "t.csv" (by decide)⟩


/-- C3 counterexample: with headers `a,,b,c,` the empty headers sit at
columns 2 and 5; the second empty header (0-based rank 1) is keyed `col_3`,
not `col_5` as the 1-based column position (index+1) rule would give. -/
theorem parseCSV_empty_header_key_counterexample :
    parseCSV "a,,b,c,\n1,2,3,4,5" "t.csv" =
      .ok ⟨[[("a", Value.str "1"), ("", Value.str "2"), ("b", Value.str "3"),
             ("c", Value.str "4"), ("col_3", Value.str "5")]],
           ["a", "", "b", "c", ""]⟩ ∧
    lookupKey [("a", Value.str "1"), ("", Value.str "2"), ("b", Value.str "3"),
      ("c", Value.str "4"), ("col_3", Value.str "5")] "col_5" = none := by
  decide

theorem getD_eq_of_drop (l : List String) (n : Nat) (h : String) (t : List String)
    (hd : l.drop n = h :: t) : l.getD n "" = h := by
  have h0 : l[n]? = some h := by
    have hx := List.getElem?_drop l n 0
    rw [hd] at hx
    simpa using hx.symm
  rw [List.getD_eq_getElem?_getD, h0]
  rfl

theorem drop_succ_of_drop (l : List String) (n : Nat) (h : String) (t : List String)
    (hd : l.drop n = h :: t) : l.drop (n + 1) = t := by
  rw [← List.drop_drop 1 n l, hd]
  rfl

theorem emptyRank_succ (headers : List String) (n : Nat) (h : String) (t : List String)
    (hd : headers.drop n = h :: t) :
    emptyRank headers (n + 1) = emptyRank headers n + (if h = "" then 1 else 0) := by
  have hn : headers[n]? = some h := by
    have hx := List.getElem?_drop headers n 0
    rw [hd] at hx
    simpa using hx.symm
  rw [emptyRank, emptyRank, List.take_succ, hn]
  by_cases he : h = "" <;> simp [he]

theorem buildRowAux_positional (headers row : List String) :
    ∀ (hs : List String) (n eIdx : Nat) (obj : CSVRow),
      headers.drop n = hs →
      ((headers.filter (fun h => h = "")).length ≠ 1 → eIdx = emptyRank headers n) →
      buildRowAux ((headers.filter (fun h => h = "")).length) headers.length row hs n eIdx obj =
        (List.range' n hs.length).foldl
          (fun o i => objSet o (positionalKey headers i) (Value.str (fieldAt row i))) obj := by
  intro hs
  induction hs with
  | nil => intro n eIdx obj _ _; rfl
  | cons h t ih =>
    intro n eIdx obj hd hinv
    have hgd : headers.getD n "" = h := getD_eq_of_drop _ _ _ _ hd
    have hdt : headers.drop (n + 1) = t := drop_succ_of_drop _ _ _ _ hd
    have hrank : emptyRank headers (n + 1) = emptyRank headers n + (if h = "" then 1 else 0) :=
      emptyRank_succ _ _ _ _ hd
    rw [List.length_cons, List.range'_succ, List.foldl_cons, buildRowAux]
    have hkey : positionalKey headers n =
        (if h = "" then
          (if (headers.filter (fun h => h = "")).length = 1 then
            (if n = headers.length - 1 then "col_" ++ toString (n + 1) else "")
          else if emptyRank headers n = 0 then "" else "col_" ++ toString (emptyRank headers n + 2))
        else h) := by
      rw [positionalKey]
      simp only [hgd]
      by_cases hempty : h = ""
      · rw [if_neg (by simp [hempty]), if_pos hempty]
      · rw [if_pos hempty, if_neg hempty]
    by_cases hempty : h = ""
    · rw [if_pos hempty]
      by_cases hec : (headers.filter (fun h => h = "")).length = 1
      · rw [if_pos hec]
        by_cases hlast : n = headers.length - 1
        · rw [if_pos hlast, ih (n + 1) eIdx _ hdt (fun hne => absurd hec hne)]
          rw [hkey, if_pos hempty, if_pos hec, if_pos hlast]
        · rw [if_neg hlast, ih (n + 1) eIdx _ hdt (fun hne => absurd hec hne)]
          rw [hkey, if_pos hempty, if_pos hec, if_neg hlast]
      · rw [if_neg hec]
        have heq : eIdx = emptyRank headers n := hinv hec
        have hnextinv : (headers.filter (fun h => h = "")).length ≠ 1 →
            eIdx + 1 = emptyRank headers (n + 1) := by
          intro _
          rw [hrank, if_pos hempty, heq]
        by_cases hz : eIdx = 0
        · rw [if_pos hz, ih (n + 1) (eIdx + 1) _ hdt hnextinv]
          rw [hkey, if_pos hempty, if_neg hec, if_pos (by rw [← heq, hz])]
        · rw [if_neg hz, ih (n + 1) (eIdx + 1) _ hdt hnextinv]
          rw [hkey, if_pos hempty, if_neg hec, if_neg (by rw [← heq]; exact hz), ← heq]
    · rw [if_neg hempty, ih (n + 1) eIdx _ hdt ?_]
      · rw [hkey, if_neg hempty]
      · intro hne
        rw [hinv hne, hrank, if_neg hempty]
        omega

/-- C3 amended: in `parseCSV`, row-mapping keys are assigned as follows: a
non-empty header is used as-is; the first empty header scanning left to
right maps to the empty-string key; every subsequent empty header maps to
`col_(j+2)` where `j` is its 0-based rank among the empty headers (not its
1-based column position); exception: when there is exactly one empty header
in total and it is the last column, it maps to `col_N` with N its 1-based
column position. `buildRow` performs exactly these positional assignments in
column order. -/
theorem buildRow_positional (headers row : List String) :
    buildRow headers row = (List.range headers.length).foldl
      (fun o i => objSet o (positionalKey headers i) (Value.str (fieldAt row i))) [] := by
  rw [buildRow, List.range_eq_range']
  exact buildRowAux_positional headers row headers 0 0 [] rfl (fun _ => rfl)

/-- C4 counterexample: for the header row `name,age,age,city,name` the error
message enumerates `age, name` (the order of the duplicate occurrences), not
`name, age` (the order of first occurrence in the header row), and the
message text does not contain the source label, which is carried by the
error's filePath field instead. -/
theorem parseCSV_duplicate_headers_counterexample :
    parseCSV "name,age,age,city,name\nJohn,25,26,NYC,Doe" "L.csv" =
      .error ⟨"L.csv", .duplicate_headers,
        "CSV file contains duplicate column names: age, name. Please fix the file and try again."⟩ ∧
    strOccurs "L.csv"
      "CSV file contains duplicate column names: age, name. Please fix the file and try again." = false ∧
    "CSV file contains duplicate column names: age, name. Please fix the file and try again." ≠
      "CSV file contains duplicate column names: name, age. Please fix the file and try again." := by
  decide

/-- C4 amended: when the tokenizer reports no errors and the header row (the
first row that is not entirely blank) contains, after quote normalization,
some non-empty name occurring more than once, `parseCSV` fails with kind
`duplicate_headers`; the message enumerates the unique duplicated names
ordered by their first duplicate occurrence, joined by ", ", and the source
label is carried in the error's filePath field (not in the message text);
empty header names are exempt, so when no non-empty name repeats the parse
succeeds. -/
theorem parseCSV_duplicate_headers_amended (content label : String) (i : Nat)
    (hnoerr : (papaFor content).errors = [])
    (hne : (papaFor content).data ≠ [])
    (hidx : firstNonEmptyRowIndex (papaFor content).data = some i) :
    (duplicateHeaderOccurrences (((papaFor content).data.getD i []).map stripQuotes) ≠ [] →
      parseCSV content label = .error ⟨label, .duplicate_headers,
        "CSV file contains duplicate column names: " ++
          String.intercalate ", " (dedupFirst (duplicateHeaderOccurrences
            (((papaFor content).data.getD i []).map stripQuotes))) ++
          ". Please fix the file and try again."⟩) ∧
    (duplicateHeaderOccurrences (((papaFor content).data.getD i []).map stripQuotes) = [] →
      ∃ d, parseCSV content label = .ok d) := by
  constructor
  · intro hdup
    simp only [parseCSV, hnoerr, hidx, ne_eq, not_true_eq_false, if_false, reduceCtorEq,
      reduceIte, hne, not_false_eq_true, if_true]
    rw [if_pos hdup]
  · intro hdup
    have hok : parseCSV content label = .ok
        ⟨filterEmptyRows (((papaFor content).data.drop (i + 1)).map
            (buildRow (((papaFor content).data.getD i []).map stripQuotes))),
          ((papaFor content).data.getD i []).map stripQuotes⟩ := by
      simp only [parseCSV, hnoerr, hidx, ne_eq, not_true_eq_false, if_false, reduceCtorEq,
        reduceIte, hne, not_false_eq_true, if_true]
      rw [if_neg (by rw [List.getD_eq_getElem?_getD] at hdup; simp [hdup])]
    exact ⟨_, hok⟩

/-- C4 amended, witness at a concrete input with duplicated headers
`name` and `age`. -/
theorem parseCSV_duplicate_headers_amended_witness :
    ((papaFor "name,age,age,city,name\nJohn,25,26,NYC,Doe").errors = []) ∧
    ((papaFor "name,age,age,city,name\nJohn,25,26,NYC,Doe").data ≠ []) ∧
    (firstNonEmptyRowIndex (papaFor "name,age,age,city,name\nJohn,25,26,NYC,Doe").data = some 0) ∧
    (duplicateHeaderOccurrences
      (((papaFor "name,age,age,city,name\nJohn,25,26,NYC,Doe").data.getD 0 []).map stripQuotes) ≠ []) ∧
    parseCSV "name,age,age,city,name\nJohn,25,26,NYC,Doe" "L.csv" =
      .error ⟨"L.csv", .duplicate_headers,
        "CSV file contains duplicate column names: " ++
          String.intercalate ", " (dedupFirst (duplicateHeaderOccurrences
            (((papaFor "name,age,age,city,name\nJohn,25,26,NYC,Doe").data.getD 0 []).map stripQuotes))) ++
          ". Please fix the file and try again."⟩ :=
  ⟨by decide, by decide, by decide, by decide,
    (parseCSV_duplicate_headers_amended "name,age,age,city,name\nJohn,25,26,NYC,Doe" "L.csv" 0
      (by decide) (by decide) (by decide)).1 (by decide)⟩

end CsvFilter
